import Mathlib

set_option maxRecDepth 8000

namespace GoUdev

/-- A byte buffer, as in a Go byte slice; each `Char` stands for one byte. -/
abbrev Bytes := List Char

/-- The NUL byte (0x00) that terminates uevent fields. -/
def NUL : Char := Char.ofNat 0

/-- The separator between the action and the kobject path in a native header. -/
def atChar : Char := '@'

/-- The key/value separator inside env fields. -/
def eqChar : Char := '='

/-- Models Go bytes.Split with a one-byte separator. -/
def bsplit (sep : Char) (l : Bytes) : List Bytes :=
  l.splitOnP (fun x => decide (x = sep))

/-- Environment mapping, as an insertion-ordered association list with unique
keys, modelling the Go map from string to string. -/
abbrev EnvMap := List (Bytes × Bytes)

/-- Go map assignment m[k] = v: replace the value if the key is present,
otherwise append the new binding. -/
def mapInsert (m : EnvMap) (k v : Bytes) : EnvMap :=
  match m with
  | [] => [(k, v)]
  | (k', v') :: rest => if k' = k then (k, v) :: rest else (k', v') :: mapInsert rest k v

/-- Go map lookup m[k], yielding the zero value (the empty string) for a
missing key. -/
def lookupD (m : EnvMap) (k : Bytes) : Bytes :=
  match m with
  | [] => []
  | (k', v') :: rest => if k' = k then v' else lookupD rest k

/-- KObjAction is a string type in the source (netlink/uevent.go). -/
abbrev KObjAction := Bytes

def ADD : KObjAction := "add".data
def REMOVE : KObjAction := "remove".data
def CHANGE : KObjAction := "change".data
def MOVE : KObjAction := "move".data
def ONLINE : KObjAction := "online".data
def OFFLINE : KObjAction := "offline".data
def BIND : KObjAction := "bind".data
def UNBIND : KObjAction := "unbind".data

/-- The eight actions admitted by the switch in ParseKObjAction. -/
def kobjActions : List KObjAction := [ADD, REMOVE, CHANGE, MOVE, ONLINE, OFFLINE, BIND, UNBIND]

def msgUnknownAction : String := "unknow kobject action"

/-- Models ParseKObjAction (netlink/uevent.go): the raw string is always
returned as the action, and the error slot is filled exactly when the string
is none of the eight enumerated actions.  The Go error text interpolates the
offending string; the model keeps the fixed message prefix. -/
def ParseKObjAction (raw : Bytes) : KObjAction × Option String :=
  (raw, if raw ∈ kobjActions then none else some msgUnknownAction)

/-- Models the UEvent struct (netlink/uevent.go). -/
structure UEvent where
  Action : KObjAction
  KObj : Bytes
  Env : EnvMap
deriving DecidableEq

/-- Membership test used by the inner loop of UEvent.Equal. -/
def envContains (m : EnvMap) (k v : Bytes) : Bool :=
  m.any (fun p => decide (p.1 = k) && decide (p.2 = v))

def msgWrongAction : String := "Wrong action"
def msgWrongKObj : String := "Wrong kobject"
def msgWrongEnvLen : String := "Wrong length of env"
def msgEnvNotFound : String := "Unable to find env var from uevent"

/-- Models UEvent.Equal: actions, kobject paths and env lengths must agree,
and every env pair of the receiver must occur in the argument; the first
failure is reported with a specific message. -/
def UEvent.Equal (e e2 : UEvent) : Bool × Option String :=
  if e.Action ≠ e2.Action then (false, some msgWrongAction)
  else if e.KObj ≠ e2.KObj then (false, some msgWrongKObj)
  else if e.Env.length ≠ e2.Env.length then (false, some msgWrongEnvLen)
  else
    match e.Env.find? (fun p => !envContains e2.Env p.1 p.2) with
    | some _ => (false, some msgEnvNotFound)
    | none => (true, none)

/-- Models UEvent.String and UEvent.Bytes: "action@kobj\0" followed by one
"key=value\0" chunk per env entry.  The Go map iteration order is
unspecified; the model iterates Env in list order. -/
def UEvent.String (e : UEvent) : Bytes :=
  (e.Action ++ atChar :: (e.KObj ++ [NUL])) ++
    (e.Env.map (fun p => p.1 ++ eqChar :: (p.2 ++ [NUL]))).flatten

/-- The outcome of a Go parse function with named results (e *UEvent, err
error); `ret e err` is a normal return carrying both named values, and
`crash` records a Go runtime panic. -/
inductive PResult where
  | ret : Option UEvent → Option String → PResult
  | crash : String → PResult
deriving DecidableEq

def msgWrongFormat : String := "Wrong uevent format"
def msgWrongHeader : String := "Wrong uevent header"
def msgWrongEnv : String := "Wrong uevent env"
def msgMagicMismatch : String := "cannot parse libudev event: magic number mismatch"
def msgInvalidOffset : String := "cannot parse libudev event: invalid data offset"
def msgDataMissing : String := "cannot parse libudev event: data missing"
def msgInvalidEnvData : String := "cannot parse libudev event: invalid env data"
def msgSliceBounds : String := "runtime error: slice bounds out of range"

/-- The env-collecting loop shared by both parse paths: each field must split
on "=" into exactly two parts; the map built so far is returned together with
the error slot (the native path hands the partially filled map back to the
caller even on failure, as the Go code mutates the event in place). -/
def collectEnvLoop (emsg : String) : List Bytes → EnvMap → EnvMap × Option String
  | [], env => (env, none)
  | f :: rest, env =>
    match bsplit eqChar f with
    | [k, v] => collectEnvLoop emsg rest (mapInsert env k v)
    | _ => (env, some emsg)

/-- Big-endian 32-bit read at byte offset i, as binary.BigEndian.Uint32. -/
def be32 (raw : Bytes) (i : Nat) : Nat :=
  (raw.getD i NUL).toNat * 16777216 + (raw.getD (i + 1) NUL).toNat * 65536 +
    (raw.getD (i + 2) NUL).toNat * 256 + (raw.getD (i + 3) NUL).toNat

/-- Native-byte-order 32-bit read at byte offset i: the unsafe pointer cast
in parseUdevEvent on a little-endian platform (amd64/arm64). -/
def le32 (raw : Bytes) (i : Nat) : Nat :=
  (raw.getD i NUL).toNat + (raw.getD (i + 1) NUL).toNat * 256 +
    (raw.getD (i + 2) NUL).toNat * 65536 + (raw.getD (i + 3) NUL).toNat * 16777216

/-- The magic value used by udev (netlink/uevent.go). -/
def libudevMagic : Nat := 0xfeedcafe

/-- ASCII case mapping, modelling strings.ToLower on the ASCII inputs the
parser deals with. -/
def asciiToLower (s : Bytes) : Bytes :=
  s.map (fun c => if 'A' ≤ c ∧ c ≤ 'Z' then Char.ofNat (c.toNat + 32) else c)

def actionKey : Bytes := "ACTION".data
def devpathKey : Bytes := "DEVPATH".data

/-- Models parseUdevEvent (netlink/uevent.go): check the big-endian magic at
bytes 8..12, check the native-order payload offset at bytes 16..20 against
the buffer length, split the payload into NUL-terminated fields, collect all
but the trailing field as key=value env entries, then derive the action from
the lower-cased env value of ACTION and the kobject path from DEVPATH. -/
def parseUdevEvent (raw : Bytes) : PResult :=
  if be32 raw 8 ≠ libudevMagic then .ret none (some msgMagicMismatch)
  else
    let payloadoff := le32 raw 16
    if payloadoff ≥ raw.length then .ret none (some msgInvalidOffset)
    else
      let fields := bsplit NUL (raw.drop payloadoff)
      if fields.length = 0 then .ret none (some msgDataMissing)
      else
        let collected := collectEnvLoop msgInvalidEnvData (fields.take (fields.length - 1)) []
        match collected.2 with
        | some m => .ret none (some m)
        | none =>
          let envdata := collected.1
          let parsed := ParseKObjAction (asciiToLower (lookupD envdata actionKey))
          match parsed.2 with
          | some m => .ret none (some m)
          | none => .ret (some ⟨parsed.1, lookupD envdata devpathKey, envdata⟩) none

/-- The fields of a native buffer: NUL-separated chunks. -/
def nativeFields (raw : Bytes) : List Bytes := bsplit NUL raw

/-- The env-field range fields[1 : len(fields)-1] of the native parser. -/
def nativeEnvFields (raw : Bytes) : List Bytes :=
  ((nativeFields raw).drop 1).take ((nativeFields raw).length - 2)

/-- Models the native-format branch of ParseUEvent (netlink/uevent.go): split
on NUL, split the first field on "@" into exactly action and kobject path,
validate the action, then collect fields[1 : len(fields)-1] as env entries.
When the buffer holds no NUL at all, len(fields) is 1 and the Go slice
expression fields[1:0] panics; the model records that as a crash. -/
def parseNativeUEvent (raw : Bytes) : PResult :=
  let fields := nativeFields raw
  if fields.length = 0 then .ret none (some msgWrongFormat)
  else
    match bsplit atChar (fields.headD []) with
    | [actionStr, kobj] =>
      let parsed := ParseKObjAction actionStr
      match parsed.2 with
      | some m => .ret none (some m)
      | none =>
        if fields.length < 2 then .crash msgSliceBounds
        else
          let collected := collectEnvLoop msgWrongEnv (nativeEnvFields raw) []
          .ret (some ⟨parsed.1, kobj, collected.1⟩) collected.2
    | _ => .ret none (some msgWrongHeader)

/-- The eight header bytes that announce the enriched format. -/
def libudevHeader : Bytes := "libudev".data ++ [NUL]

/-- The dispatch condition of ParseUEvent: buffer longer than 40 bytes and
starting with "libudev\0". -/
def enrichedGuard (raw : Bytes) : Bool :=
  decide (40 < raw.length) && decide (raw.take 8 = libudevHeader)

/-- Models ParseUEvent (netlink/uevent.go): dispatch on the enriched-format
guard, otherwise parse as native format. -/
def ParseUEvent (raw : Bytes) : PResult :=
  if enrichedGuard raw then parseUdevEvent raw else parseNativeUEvent raw

/-- The byte count that a peek (MSG_PEEK) returns for a pending datagram of
size d into a buffer of the given length: datagram sockets deliver
min(datagram size, buffer length). -/
def recvPeekCount (d bufLen : Nat) : Nat := min d bufLen

/-- The peek-then-grow loop of UEventConn.msgPeek (netlink/conn.go): peek,
return once the count is strictly below the buffer length, otherwise grow the
buffer by one page and retry.  The loop in the source has no bound; the fuel
argument is a termination device only, chosen large enough (see msgPeek) that
it never runs out when the page size is positive. -/
def msgPeekLoop (d page : Nat) : Nat → Nat → Nat × Nat
  | 0, bufLen => (recvPeekCount d bufLen, bufLen)
  | fuel + 1, bufLen =>
    if recvPeekCount d bufLen < bufLen then (recvPeekCount d bufLen, bufLen)
    else msgPeekLoop d page fuel (bufLen + page)

/-- Models UEventConn.msgPeek for a pending datagram of size d with
virtual-memory page size page: the buffer starts at one page.  Returns the
byte count and the final buffer length. -/
def msgPeek (d page : Nat) : Nat × Nat := msgPeekLoop d page (d + 1) page

def msgEmptyBuffer : String := "empty buffer"

/-- Models UEventConn.msgRead (netlink/conn.go): buf is the supplied buffer
(none models a nil pointer), recv the outcome of the destructive Recvfrom
call (ok n means the read returned n bytes).  On success the buffer is
truncated to the returned count. -/
def msgRead (buf : Option Bytes) (recv : Except String Nat) : Except String Bytes :=
  match buf with
  | none => .error msgEmptyBuffer
  | some b =>
    match recv with
    | .error m => .error m
    | .ok n => .ok (b.take n)

/-- Terminal states of the Monitor worker loop. -/
inductive MonStatus where
  | stopped
  | failed
  | crashed
deriving DecidableEq

/-- The observable outcome of a Monitor run over a finite input prefix:
events delivered to the queue, errors emitted to the error channel, and the
terminal status (none while the loop is still running). -/
structure MonOut where
  events : List UEvent
  errors : List String
  status : Option MonStatus
deriving DecidableEq

def msgUnableRead : String := "Unable to read uevent, err: "
def msgUnableParse : String := "Unable to parse uevent, err: "

/-- Sequentialized model of the steady-state worker loop of
UEventConn.Monitor (netlink/conn.go): each list entry is the outcome of one
msgPeek/msgRead cycle (ok buffer, or error on a failed read).  A read error
is emitted and ends the loop in the failed state; a parse error is emitted
and the loop continues with the match counter unchanged; a parsed event is
filtered through the matcher when one is supplied, delivered, and counted,
and the loop stops once a positive MatchedUEventLimit is reached.  A Go
panic inside ParseUEvent crashes the goroutine, recorded as crashed. -/
def monitorRun (matcher : Option (UEvent → Bool)) (limit : Nat) :
    Nat → List (Except String Bytes) → MonOut
  | _, [] => ⟨[], [], none⟩
  | _, .error m :: _ => ⟨[], [msgUnableRead ++ m], some .failed⟩
  | count, .ok buf :: rest =>
    match ParseUEvent buf with
    | .crash _ => ⟨[], [], some .crashed⟩
    | .ret _ (some m) =>
      let r := monitorRun matcher limit count rest
      ⟨r.events, (msgUnableParse ++ m) :: r.errors, r.status⟩
    | .ret none none => ⟨[], [], some .crashed⟩
    | .ret (some e) none =>
      if (matcher.map (fun f => f e)).getD true then
        if 0 < limit ∧ limit ≤ count + 1 then ⟨[e], [], some .stopped⟩
        else
          let r := monitorRun matcher limit (count + 1) rest
          ⟨e :: r.events, r.errors, r.status⟩
      else monitorRun matcher limit count rest

/-! Helper lemmas about bsplit. -/

theorem bsplit_ne_nil (sep : Char) (l : Bytes) : bsplit sep l ≠ [] :=
  List.splitOnP_ne_nil _ l

theorem bsplit_nosep {sep : Char} {xs : Bytes} (h : sep ∉ xs) : bsplit sep xs = [xs] :=
  List.splitOnP_eq_single _ _
    (fun x hx => by simp only [decide_eq_true_eq]; exact fun he => h (he ▸ hx))

theorem bsplit_sep_append {sep : Char} {xs : Bytes} (h : sep ∉ xs) (as : Bytes) :
    bsplit sep (xs ++ sep :: as) = xs :: bsplit sep as := by
  unfold bsplit
  exact List.splitOnP_first _ _
    (fun x hx => by simp only [decide_eq_true_eq]; exact fun he => h (he ▸ hx)) sep
    (by simp) as

theorem length_bsplit (sep : Char) (l : Bytes) :
    (bsplit sep l).length = l.countP (fun x => decide (x = sep)) + 1 := by
  induction l with
  | nil => simp [bsplit, List.splitOnP_nil]
  | cons a l ih =>
    simp only [bsplit, List.splitOnP_cons, List.countP_cons] at *
    by_cases ha : a = sep
    · simp [ha, ih]
    · simp [ha, List.length_modifyHead, ih]

/-! Concrete buffers used by the end-to-end scenarios and witnesses. -/

/-- The native buffer of end-to-end scenario 1. -/
def natExample : Bytes :=
  "add@/devices/foo".data ++ [NUL] ++ "DEVPATH=/devices/foo".data ++ [NUL]

/-- The enriched buffer of end-to-end scenario 2: "libudev\0", big-endian
magic 0xFEEDCAFE, four ignored bytes, native-order payload offset 24, four
more ignored bytes, then the payload. -/
def enrExample : Bytes :=
  "libudev".data ++ [NUL] ++
    [Char.ofNat 0xfe, Char.ofNat 0xed, Char.ofNat 0xca, Char.ofNat 0xfe] ++
    [NUL, NUL, NUL, NUL] ++ [Char.ofNat 24, NUL, NUL, NUL] ++ [NUL, NUL, NUL, NUL] ++
    "ACTION=change".data ++ [NUL] ++ "DEVPATH=/devices/bar".data ++ [NUL]

/-! Claim theorems. -/

/-- C1: ParseUEvent dispatches to the enriched-format parser when the buffer
is strictly longer than 40 bytes and its first 8 bytes are "libudev\0", and
parses every other buffer as native format, never enriched. -/
theorem c1_format_detection (raw : Bytes) :
    (40 < raw.length ∧ raw.take 8 = libudevHeader →
       ParseUEvent raw = parseUdevEvent raw) ∧
    (raw.length ≤ 40 ∨ raw.take 8 ≠ libudevHeader →
       ParseUEvent raw = parseNativeUEvent raw) := by
  constructor
  · intro h
    have hg : enrichedGuard raw = true := by
      simp [enrichedGuard, h.1, h.2]
    simp [ParseUEvent, hg]
  · intro h
    have hg : enrichedGuard raw = false := by
      simp only [enrichedGuard, Bool.and_eq_false_iff, decide_eq_false_iff_not, Nat.not_lt]
      rcases h with h | h
      · exact Or.inl h
      · exact Or.inr h
    simp [ParseUEvent, hg]

def c1buf1 : Bytes := libudevHeader ++ List.replicate 33 NUL

def c1buf2 : Bytes := "add@x".data ++ [NUL]

theorem c1_format_detection_witness :
    ParseUEvent c1buf1 = parseUdevEvent c1buf1 ∧
      ParseUEvent c1buf2 = parseNativeUEvent c1buf2 :=
  ⟨(c1_format_detection c1buf1).1 ⟨by decide, by decide⟩,
   (c1_format_detection c1buf2).2 (Or.inl (by decide))⟩

/-- C3: on the enriched path, a big-endian magic at bytes 8..12 different
from 0xFEEDCAFE fails with the magic-mismatch error and no event, and (the
magic being checked first) a native-order payload offset at bytes 16..20 that
is at least the buffer length fails with the invalid-offset error and no
event. -/
theorem c3_enriched_header_checks (raw : Bytes) (hg : enrichedGuard raw = true) :
    (be32 raw 8 ≠ libudevMagic →
       ParseUEvent raw = .ret none (some msgMagicMismatch)) ∧
    (be32 raw 8 = libudevMagic → raw.length ≤ le32 raw 16 →
       ParseUEvent raw = .ret none (some msgInvalidOffset)) := by
  constructor
  · intro hm
    simp [ParseUEvent, hg, parseUdevEvent, hm]
  · intro hm hoff
    simp [ParseUEvent, hg, parseUdevEvent, hm, ge_iff_le, hoff]

def c3buf1 : Bytes := libudevHeader ++ List.replicate 33 NUL

def c3buf2 : Bytes :=
  libudevHeader ++ [Char.ofNat 0xfe, Char.ofNat 0xed, Char.ofNat 0xca, Char.ofNat 0xfe] ++
    [NUL, NUL, NUL, NUL] ++ [Char.ofNat 0xff, Char.ofNat 0xff, NUL, NUL] ++
    List.replicate 21 NUL

theorem c3_enriched_header_checks_witness :
    ParseUEvent c3buf1 = .ret none (some msgMagicMismatch) ∧
      ParseUEvent c3buf2 = .ret none (some msgInvalidOffset) :=
  ⟨(c3_enriched_header_checks c3buf1 (by decide)).1 (by decide),
   (c3_enriched_header_checks c3buf2 (by decide)).2 (by decide) (by decide)⟩

def c7buf : Bytes := "add@/devices/foo".data

/-- C7: a buffer holding no NUL byte whose single field is a valid
action@path header drives the native parser into the Go slice expression
fields[1:len(fields)-1] with len(fields) = 1, a slice-bounds violation:
ParseUEvent panics instead of returning an event or an error. -/
theorem c7_no_nul_panics : ParseUEvent c7buf = .crash msgSliceBounds := by decide

/-- C8: the size probe starts at one page, grows by one page whenever the
peeked count equals the buffer length, and returns only once the count is
strictly below the buffer length: the returned count is the exact datagram
size, the final buffer is larger than the datagram, exceeds it by at most one
page, and is a whole number of pages. -/
theorem c8_peek_grow (d page : Nat) (hp : 0 < page) :
    (msgPeek d page).1 = d ∧ d < (msgPeek d page).2 ∧
      (msgPeek d page).2 ≤ d + page ∧ page ∣ (msgPeek d page).2 := by
  have key : ∀ fuel bufLen, d < fuel + bufLen →
      (msgPeekLoop d page fuel bufLen).1 = d ∧
      d < (msgPeekLoop d page fuel bufLen).2 ∧
      (bufLen ≤ d + page → (msgPeekLoop d page fuel bufLen).2 ≤ d + page) ∧
      (page ∣ bufLen → page ∣ (msgPeekLoop d page fuel bufLen).2) := by
    intro fuel
    induction fuel with
    | zero =>
      intro bufLen h
      have hd : d < bufLen := by omega
      have e1 : msgPeekLoop d page 0 bufLen = (d, bufLen) := by
        simp [msgPeekLoop, recvPeekCount, Nat.min_eq_left hd.le]
      rw [e1]
      exact ⟨rfl, hd, fun h2 => h2, fun h3 => h3⟩
    | succ fuel ih =>
      intro bufLen h
      by_cases hd : d < bufLen
      · have hlt : recvPeekCount d bufLen < bufLen := by
          simpa [recvPeekCount, Nat.min_eq_left hd.le] using hd
        have e1 : msgPeekLoop d page (fuel + 1) bufLen = (d, bufLen) := by
          simp only [msgPeekLoop, if_pos hlt]
          simp [recvPeekCount, Nat.min_eq_left hd.le]
        rw [e1]
        exact ⟨rfl, hd, fun h2 => h2, fun h3 => h3⟩
      · have hble : bufLen ≤ d := by omega
        have hlt : ¬ recvPeekCount d bufLen < bufLen := by
          simp [recvPeekCount, Nat.min_eq_right hble]
        have step : msgPeekLoop d page (fuel + 1) bufLen = msgPeekLoop d page fuel (bufLen + page) := by
          simp [msgPeekLoop, hlt]
        have ihh := ih (bufLen + page) (by omega)
        rw [step]
        exact ⟨ihh.1, ihh.2.1, fun _ => ihh.2.2.1 (by omega),
          fun hdvd => ihh.2.2.2 (Nat.dvd_add hdvd dvd_rfl)⟩
  have h := key (d + 1) page (by omega)
  exact ⟨h.1, h.2.1, h.2.2.1 (by omega), h.2.2.2 dvd_rfl⟩

theorem c8_peek_grow_witness :
    0 < 4096 ∧ (msgPeek 4096 4096).1 = 4096 ∧ 4096 < (msgPeek 4096 4096).2 :=
  ⟨by omega, (c8_peek_grow 4096 4096 (by omega)).1, (c8_peek_grow 4096 4096 (by omega)).2.1⟩

/-- C10 (amended): msgRead fails on a nil buffer pointer or a failed read,
and on success truncates the supplied buffer to the byte count the read
returned; a non-nil zero-length buffer is not itself rejected. -/
theorem c10_msgRead_behavior :
    (∀ recv, msgRead none recv = .error msgEmptyBuffer) ∧
    (∀ b m, msgRead (some b) (.error m) = .error m) ∧
    (∀ (b : Bytes) n, n ≤ b.length →
       msgRead (some b) (.ok n) = .ok (b.take n) ∧ (b.take n).length = n) := by
  refine ⟨fun recv => rfl, fun b m => rfl, fun b n hn => ⟨rfl, ?_⟩⟩
  simp [List.length_take, Nat.min_eq_left hn]

/-- C10 counterexample: the Go check is buf == nil on the pointer only, so a
non-nil pointer to a zero-length buffer is accepted and the call succeeds,
contradicting the claim that a zero-length buffer fails. -/
theorem c10_zero_length_not_rejected :
    msgRead (some []) (Except.ok 0) = .ok [] := rfl

def c10buf : Bytes := "ab".data

theorem c10_msgRead_behavior_witness :
    msgRead (some c10buf) (Except.ok 1) = .ok (c10buf.take 1) ∧ (c10buf.take 1).length = 1 :=
  c10_msgRead_behavior.2.2 c10buf 1 (by decide)

/-! Inversion helpers for the parsers. -/

theorem parseKObjAction_none_iff (s : Bytes) :
    (ParseKObjAction s).2 = none ↔ s ∈ kobjActions := by
  by_cases hc : s ∈ kobjActions <;> simp [ParseKObjAction, hc]

theorem parseUdevEvent_event_action {raw : Bytes} {e : UEvent} {err : Option String}
    (h : parseUdevEvent raw = .ret (some e) err) : e.Action ∈ kobjActions := by
  simp only [parseUdevEvent] at h
  split at h
  · simp at h
  · split at h
    · simp at h
    · split at h
      · simp at h
      · split at h
        · simp at h
        · split at h
          · simp at h
          · rename_i hsnd
            rw [PResult.ret.injEq, Option.some.injEq] at h
            obtain ⟨he, -⟩ := h
            subst he
            exact (parseKObjAction_none_iff _).mp hsnd

theorem parseNativeUEvent_event_action {raw : Bytes} {e : UEvent} {err : Option String}
    (h : parseNativeUEvent raw = .ret (some e) err) : e.Action ∈ kobjActions := by
  simp only [parseNativeUEvent] at h
  split at h
  · simp at h
  · split at h
    · rename_i actionStr kobj hsp
      split at h
      · simp at h
      · rename_i hsnd
        split at h
        · simp at h
        · rw [PResult.ret.injEq, Option.some.injEq] at h
          obtain ⟨he, -⟩ := h
          subst he
          exact (parseKObjAction_none_iff _).mp hsnd
    · simp at h

/-- C4: ParseKObjAction accepts exactly the eight enumerated action strings
(case-sensitively), and whenever ParseUEvent returns an event its action is
one of them, so no unknown variant is ever produced. -/
theorem c4_action_validation :
    (∀ s, (ParseKObjAction s).2 = none ↔ s ∈ kobjActions) ∧
    (∀ raw e err, ParseUEvent raw = .ret (some e) err → e.Action ∈ kobjActions) ∧
    (ParseKObjAction "Add".data).2 ≠ none := by
  refine ⟨parseKObjAction_none_iff, ?_, by decide⟩
  intro raw e err h
  rw [ParseUEvent] at h
  split at h
  · exact parseUdevEvent_event_action h
  · exact parseNativeUEvent_event_action h

theorem c4_action_validation_witness :
    ADD ∈ kobjActions ∧ (ParseKObjAction REMOVE).2 = none :=
  ⟨c4_action_validation.2.1 natExample
      ⟨ADD, "/devices/foo".data, [(devpathKey, "/devices/foo".data)]⟩ none (by decide),
   (c4_action_validation.1 REMOVE).mpr (by decide)⟩

/-- C5: on the enriched path a successfully parsed event takes its action
from the lower-cased env value of ACTION validated against the action set,
its kobject path from the env value of DEVPATH (empty when absent), so env
carries the same DEVPATH value as the kobject path; and the scenario-2
buffer parses to the expected event. -/
theorem c5_enriched_env_semantics :
    (∀ raw e, enrichedGuard raw = true → ParseUEvent raw = .ret (some e) none →
       e.Action = asciiToLower (lookupD e.Env actionKey) ∧
       e.Action ∈ kobjActions ∧
       e.KObj = lookupD e.Env devpathKey) ∧
    ParseUEvent enrExample =
      .ret (some ⟨CHANGE, "/devices/bar".data,
        [(actionKey, CHANGE), (devpathKey, "/devices/bar".data)]⟩) none := by
  refine ⟨?_, by decide⟩
  intro raw e hg h
  rw [ParseUEvent] at h
  rw [if_pos hg] at h
  simp only [parseUdevEvent] at h
  split at h
  · simp at h
  · split at h
    · simp at h
    · split at h
      · simp at h
      · split at h
        · simp at h
        · split at h
          · simp at h
          · rename_i hsnd
            rw [PResult.ret.injEq, Option.some.injEq] at h
            obtain ⟨he, -⟩ := h
            subst he
            exact ⟨rfl, (parseKObjAction_none_iff _).mp hsnd, rfl⟩

theorem c5_enriched_env_semantics_witness :
    CHANGE = asciiToLower (lookupD [(actionKey, CHANGE), (devpathKey, "/devices/bar".data)] actionKey) ∧
      CHANGE ∈ kobjActions ∧
      "/devices/bar".data = lookupD [(actionKey, CHANGE), (devpathKey, "/devices/bar".data)] devpathKey :=
  c5_enriched_env_semantics.1 enrExample
    ⟨CHANGE, "/devices/bar".data, [(actionKey, CHANGE), (devpathKey, "/devices/bar".data)]⟩
    (by decide) (by decide)

/-! Helpers about the env-collecting loop. -/

theorem collectEnvLoop_success_splits (emsg : String) :
    ∀ (fields : List Bytes) (acc : EnvMap),
      (collectEnvLoop emsg fields acc).2 = none →
      ∀ f ∈ fields, ∃ k v, bsplit eqChar f = [k, v] := by
  intro fields
  induction fields with
  | nil => intro acc _ f hf; cases hf
  | cons g rest ih =>
    intro acc h f hf
    rcases hsp : bsplit eqChar g with _ | ⟨k, _ | ⟨v, _ | ⟨w, tl⟩⟩⟩ <;>
      rw [collectEnvLoop, hsp] at h
    · simp at h
    · simp at h
    · rcases List.mem_cons.mp hf with rfl | hf2
      · exact ⟨k, v, hsp⟩
      · exact ih _ h f hf2
    · simp at h

theorem collectEnvLoop_bad_field (emsg : String) :
    ∀ (fields : List Bytes) (acc : EnvMap) (f : Bytes), f ∈ fields →
      (bsplit eqChar f).length ≠ 2 →
      (collectEnvLoop emsg fields acc).2 = some emsg := by
  intro fields
  induction fields with
  | nil => intro acc f hf; cases hf
  | cons g rest ih =>
    intro acc f hf hbad
    rw [collectEnvLoop]
    rcases hsp : bsplit eqChar g with _ | ⟨k, _ | ⟨v, _ | ⟨w, tl⟩⟩⟩
    · rfl
    · rfl
    · rcases List.mem_cons.mp hf with rfl | hf2
      · exact absurd (by rw [hsp]; rfl) hbad
      · exact ih _ f hf2 hbad
    · rfl

theorem nativeEnvFields_mem_len {raw : Bytes} {f : Bytes} (hf : f ∈ nativeEnvFields raw) :
    2 ≤ (nativeFields raw).length := by
  by_contra hlt
  rw [Nat.not_le] at hlt
  have h1 : (nativeFields raw).drop 1 = [] := List.drop_eq_nil_of_le (by omega)
  rw [nativeEnvFields, h1] at hf
  simp at hf

/-- C2: in native parsing the first NUL-terminated field must split on a
single at-sign into exactly the action and the kobject path, every env field
(all fields but the first and the empty trailing one) must split on the
equals sign into exactly a key and a value populating env, any field that
fails its split yields an error, and the scenario-1 buffer parses to the
expected event. -/
theorem c2_native_field_rules :
    (∀ raw, enrichedGuard raw = false →
       (bsplit atChar ((nativeFields raw).headD [])).length ≠ 2 →
       ParseUEvent raw = .ret none (some msgWrongHeader)) ∧
    (∀ raw f, enrichedGuard raw = false → f ∈ nativeEnvFields raw →
       (bsplit eqChar f).length ≠ 2 →
       ∃ e m, ParseUEvent raw = .ret e (some m)) ∧
    (∀ raw e, enrichedGuard raw = false → ParseUEvent raw = .ret (some e) none →
       bsplit atChar ((nativeFields raw).headD []) = [e.Action, e.KObj] ∧
       (∀ f ∈ nativeEnvFields raw, ∃ k v, bsplit eqChar f = [k, v]) ∧
       e.Env = (collectEnvLoop msgWrongEnv (nativeEnvFields raw) []).1) ∧
    ParseUEvent natExample =
      .ret (some ⟨ADD, "/devices/foo".data, [(devpathKey, "/devices/foo".data)]⟩) none := by
  have hne : ∀ raw : Bytes, ¬ (nativeFields raw).length = 0 := by
    intro raw h0
    exact bsplit_ne_nil NUL raw (List.length_eq_zero.mp h0)
  refine ⟨?_, ?_, ?_, by decide⟩
  · intro raw hg hlen
    rw [ParseUEvent, if_neg (by simp [hg])]
    rw [parseNativeUEvent]
    rw [if_neg (hne raw)]
    rcases hsp : bsplit atChar ((nativeFields raw).headD []) with _ | ⟨a, _ | ⟨k, _ | ⟨w, tl⟩⟩⟩
    · rfl
    · rfl
    · exact absurd (by rw [hsp]; rfl) hlen
    · rfl
  · intro raw f hg hf hbad
    have hg2 : ParseUEvent raw = parseNativeUEvent raw := by
      rw [ParseUEvent, if_neg (by simp [hg])]
    rcases hres : parseNativeUEvent raw with ⟨e2, err2⟩ | m
    · rcases err2 with _ | m
      · exfalso
        simp only [parseNativeUEvent] at hres
        split at hres
        · simp at hres
        · split at hres
          · split at hres
            · simp at hres
            · split at hres
              · simp at hres
              · obtain ⟨-, h2⟩ := PResult.ret.inj hres
                obtain ⟨k, v, hkv⟩ :=
                  collectEnvLoop_success_splits msgWrongEnv _ _ h2 f hf
                rw [hkv] at hbad
                exact hbad rfl
          · simp at hres
      · exact ⟨e2, m, by rw [hg2, hres]⟩
    · exfalso
      have hlen := nativeEnvFields_mem_len hf
      simp only [parseNativeUEvent] at hres
      split at hres
      · simp at hres
      · split at hres
        · split at hres
          · simp at hres
          · split at hres
            · rename_i hlt
              omega
            · simp at hres
        · simp at hres
  · intro raw e hg h
    rw [ParseUEvent, if_neg (by simp [hg])] at h
    simp only [parseNativeUEvent] at h
    split at h
    · simp at h
    · split at h
      · rename_i actionStr kobj hsp
        split at h
        · simp at h
        · rename_i hsnd
          split at h
          · simp at h
          · rename_i hcoll
            rw [PResult.ret.injEq, Option.some.injEq] at h
            obtain ⟨he, herr⟩ := h
            subst he
            exact ⟨hsp, collectEnvLoop_success_splits msgWrongEnv _ _ herr, rfl⟩
      · simp at h

def c2hdrbuf : Bytes := "nonsense".data ++ [NUL]

theorem c2_native_field_rules_witness :
    ParseUEvent c2hdrbuf = .ret none (some msgWrongHeader) ∧
      bsplit atChar ((nativeFields natExample).headD []) = [ADD, "/devices/foo".data] :=
  ⟨c2_native_field_rules.1 c2hdrbuf (by decide) (by decide),
   (c2_native_field_rules.2.2.1 natExample
      ⟨ADD, "/devices/foo".data, [(devpathKey, "/devices/foo".data)]⟩
      (by decide) (by decide)).1⟩

/-- C9: in the Monitor loop's steady state a parse failure is emitted to the
error stream and the loop continues with the match counter unchanged, a
transport read failure is emitted and ends the loop in the failed state, and
a malformed datagram between two valid ones yields exactly one error entry
while both valid events are delivered. -/
theorem c9_monitor_error_handling :
    (∀ matcher limit count buf e m rest,
       ParseUEvent buf = .ret e (some m) →
       monitorRun matcher limit count (.ok buf :: rest) =
         ⟨(monitorRun matcher limit count rest).events,
          (msgUnableParse ++ m) :: (monitorRun matcher limit count rest).errors,
          (monitorRun matcher limit count rest).status⟩) ∧
    (∀ matcher limit count m rest,
       monitorRun matcher limit count (.error m :: rest) =
         ⟨[], [msgUnableRead ++ m], some MonStatus.failed⟩) ∧
    monitorRun none 0 0
        [.ok natExample, .ok ("nonsense".data ++ [NUL]), .ok c1buf2] =
      ⟨[⟨ADD, "/devices/foo".data, [(devpathKey, "/devices/foo".data)]⟩,
        ⟨ADD, "x".data, []⟩],
       [msgUnableParse ++ msgWrongHeader], none⟩ := by
  refine ⟨?_, fun matcher limit count m rest => rfl, by decide⟩
  intro matcher limit count buf e m rest h
  cases e <;> rw [monitorRun, h]

theorem c9_monitor_error_handling_witness :
    monitorRun none 0 0 [Except.ok c2hdrbuf] =
      ⟨(monitorRun (none : Option (UEvent → Bool)) 0 0 []).events,
       (msgUnableParse ++ msgWrongHeader) :: (monitorRun (none : Option (UEvent → Bool)) 0 0 []).errors,
       (monitorRun (none : Option (UEvent → Bool)) 0 0 []).status⟩ :=
  c9_monitor_error_handling.1 none 0 0 c2hdrbuf none msgWrongHeader [] (by decide)

/-! Infrastructure for the encode/parse round trip (C6). -/

theorem bsplit_header {sep : Char} {a k x y : Bytes}
    (h : bsplit sep (a ++ sep :: k) = [x, y]) : x = a ∧ y = k := by
  have hcount : (a ++ sep :: k).countP (fun c => decide (c = sep)) + 1 = 2 := by
    rw [← length_bsplit, h]
    rfl
  rw [List.countP_append, List.countP_cons] at hcount
  simp at hcount
  have ha : a.countP (fun c => decide (c = sep)) = 0 := by omega
  have hk : k.countP (fun c => decide (c = sep)) = 0 := by omega
  have ha2 : sep ∉ a := by
    intro hmem
    have := List.countP_eq_zero.mp ha _ hmem
    simp at this
  have hk2 : sep ∉ k := by
    intro hmem
    have := List.countP_eq_zero.mp hk _ hmem
    simp at this
  rw [bsplit_sep_append ha2, bsplit_nosep hk2] at h
  obtain ⟨h1, h2⟩ := List.cons.inj h
  exact ⟨h1.symm, ((List.cons.inj h2).1).symm⟩

theorem mapInsert_fresh {m : EnvMap} {k v : Bytes} (h : k ∉ m.map Prod.fst) :
    mapInsert m k v = m ++ [(k, v)] := by
  induction m with
  | nil => rfl
  | cons p rest ih =>
    simp only [List.map_cons, List.mem_cons, not_or] at h
    rw [mapInsert]
    rw [if_neg (fun he => h.1 he.symm), ih h.2]
    rfl

theorem foldl_mapInsert_fresh :
    ∀ (ps : List (Bytes × Bytes)) (acc : EnvMap),
      (acc.map Prod.fst ++ ps.map Prod.fst).Nodup →
      ps.foldl (fun m p => mapInsert m p.1 p.2) acc = acc ++ ps := by
  intro ps
  induction ps with
  | nil =>
    intro acc _
    simp
  | cons p ps ih =>
    intro acc h
    rw [List.map_cons, List.append_cons] at h
    have hfresh : p.1 ∉ acc.map Prod.fst := by
      intro hmem
      have hd := (List.nodup_append.mp ((List.nodup_append.mp h).1)).2.2
      exact hd hmem (List.mem_singleton_self _)
    rw [List.foldl_cons, mapInsert_fresh hfresh]
    have h2 : ((acc ++ [p]).map Prod.fst ++ ps.map Prod.fst).Nodup := by
      rw [List.map_append]
      simpa using h
    rw [ih (acc ++ [p]) h2]
    simp

theorem equal_self (e : UEvent) : UEvent.Equal e e = (true, none) := by
  rw [UEvent.Equal]
  rw [if_neg (by simp), if_neg (by simp), if_neg (by simp)]
  have hfind : e.Env.find? (fun p => !envContains e.Env p.1 p.2) = none := by
    rw [List.find?_eq_none]
    intro p hp
    have hc : envContains e.Env p.1 p.2 = true := by
      rw [envContains, List.any_eq_true]
      exact ⟨p, hp, by simp⟩
    simp [hc]
  rw [hfind]

theorem encode_guard_false {e : UEvent} (ha : NUL ∉ e.Action) :
    enrichedGuard (UEvent.String e) = false := by
  have hs : UEvent.String e = e.Action ++ atChar :: ((e.KObj ++ [NUL]) ++
      (e.Env.map (fun p => p.1 ++ eqChar :: (p.2 ++ [NUL]))).flatten) := by
    rw [UEvent.String]
    simp [List.append_assoc]
  simp only [enrichedGuard, Bool.and_eq_false_iff, decide_eq_false_iff_not]
  right
  intro hcontra
  rw [hs, List.take_append_eq_append_take] at hcontra
  by_cases hn : e.Action.length ≤ 7
  · obtain ⟨j, hj⟩ : ∃ j, 8 - e.Action.length = j + 1 := ⟨7 - e.Action.length, by omega⟩
    rw [hj, List.take_succ_cons] at hcontra
    have hat : atChar ∈ libudevHeader :=
      hcontra ▸ List.mem_append_right _ (List.mem_cons_self _ _)
    exact absurd hat (by decide)
  · have h0 : 8 - e.Action.length = 0 := by omega
    rw [h0, List.take_zero, List.append_nil] at hcontra
    have hnul : NUL ∈ libudevHeader := by decide
    rw [← hcontra] at hnul
    exact ha (List.mem_of_mem_take hnul)

theorem bsplit_flatten_kv :
    ∀ ps : List (Bytes × Bytes), (∀ p ∈ ps, NUL ∉ p.1 ∧ NUL ∉ p.2) →
      bsplit NUL ((ps.map (fun p => p.1 ++ eqChar :: (p.2 ++ [NUL]))).flatten) =
        ps.map (fun p => p.1 ++ eqChar :: p.2) ++ [[]] := by
  intro ps
  induction ps with
  | nil =>
    intro _
    simp only [List.map_nil, List.flatten_nil, List.nil_append]
    rw [bsplit]
    exact List.splitOnP_nil _
  | cons p ps ih =>
    intro h
    have hp := h p (List.mem_cons_self p ps)
    rw [List.map_cons, List.flatten_cons]
    have hassoc : (p.1 ++ eqChar :: (p.2 ++ [NUL])) ++
        (ps.map (fun q => q.1 ++ eqChar :: (q.2 ++ [NUL]))).flatten =
        (p.1 ++ eqChar :: p.2) ++ NUL ::
        (ps.map (fun q => q.1 ++ eqChar :: (q.2 ++ [NUL]))).flatten := by
      simp [List.append_assoc]
    have hnosep : NUL ∉ p.1 ++ eqChar :: p.2 := by
      rw [List.mem_append, List.mem_cons]
      rintro (h1 | h2 | h3)
      · exact hp.1 h1
      · exact absurd h2 (by decide)
      · exact hp.2 h3
    rw [hassoc, bsplit_sep_append hnosep, ih (fun q hq => h q (List.mem_cons_of_mem p hq))]
    rfl

theorem encode_fields {e : UEvent} (ha : NUL ∉ e.Action) (hk : NUL ∉ e.KObj)
    (henv : ∀ p ∈ e.Env, NUL ∉ p.1 ∧ NUL ∉ p.2) :
    nativeFields (UEvent.String e) =
      (e.Action ++ atChar :: e.KObj) ::
        (e.Env.map (fun p => p.1 ++ eqChar :: p.2) ++ [[]]) := by
  have hs : UEvent.String e = (e.Action ++ atChar :: e.KObj) ++ NUL ::
      (e.Env.map (fun p => p.1 ++ eqChar :: (p.2 ++ [NUL]))).flatten := by
    rw [UEvent.String]
    simp [List.append_assoc]
  have hnosep : NUL ∉ e.Action ++ atChar :: e.KObj := by
    rw [List.mem_append, List.mem_cons]
    rintro (h1 | h2 | h3)
    · exact ha h1
    · exact absurd h2 (by decide)
    · exact hk h3
  rw [nativeFields, hs, bsplit_sep_append hnosep, bsplit_flatten_kv e.Env henv]

theorem collectEnvLoop_rendered (emsg : String) :
    ∀ (ps : List (Bytes × Bytes)) (acc : EnvMap),
      (collectEnvLoop emsg (ps.map (fun p => p.1 ++ eqChar :: p.2)) acc).2 = none →
      (collectEnvLoop emsg (ps.map (fun p => p.1 ++ eqChar :: p.2)) acc).1 =
        ps.foldl (fun m p => mapInsert m p.1 p.2) acc := by
  intro ps
  induction ps with
  | nil =>
    intro acc _
    rfl
  | cons p ps ih =>
    intro acc h
    rw [List.map_cons, collectEnvLoop] at h ⊢
    rcases hsp : bsplit eqChar (p.1 ++ eqChar :: p.2) with _ | ⟨x, _ | ⟨y, _ | ⟨w, tl⟩⟩⟩ <;>
      rw [hsp] at h
    · simp at h
    · simp at h
    · obtain ⟨rfl, rfl⟩ := bsplit_header hsp
      rw [List.foldl_cons]
      exact ih (mapInsert acc p.1 p.2) h
    · simp at h

def c6CexEvent : UEvent := ⟨ADD, "x".data ++ [NUL] ++ "A=B".data, []⟩

/-- C6 counterexample: an event whose kobject path contains a NUL byte has an
encoding that is a perfectly valid native-format buffer, yet parsing it gives
back a different event (the NUL reshuffles the fields), so the round trip as
claimed fails without a NUL-freedom assumption. -/
theorem c6_roundtrip_counterexample :
    ParseUEvent (UEvent.String c6CexEvent) =
      .ret (some ⟨ADD, "x".data, [("A".data, "B".data)]⟩) none ∧
    (UEvent.Equal ⟨ADD, "x".data, [("A".data, "B".data)]⟩ c6CexEvent).1 = false := by
  constructor
  · decide
  · decide

/-- C6 (amended): for every event whose action, kobject path and env keys and
values are free of NUL bytes (and whose env keys are distinct, as they are
for a Go map), if its encoding parses successfully as a native-format buffer
then the parsed event is equal to the original under the equality check; the
environment order is simply preserved by the model's fixed iteration order. -/
theorem c6_native_roundtrip (e e' : UEvent)
    (hnodup : (e.Env.map Prod.fst).Nodup)
    (ha : NUL ∉ e.Action) (hk : NUL ∉ e.KObj)
    (henv : ∀ p ∈ e.Env, NUL ∉ p.1 ∧ NUL ∉ p.2)
    (h : ParseUEvent (UEvent.String e) = .ret (some e') none) :
    (UEvent.Equal e' e).1 = true := by
  rw [ParseUEvent, if_neg (by simp [encode_guard_false ha])] at h
  have hfields := encode_fields ha hk henv
  have henvfields : nativeEnvFields (UEvent.String e) =
      e.Env.map (fun p => p.1 ++ eqChar :: p.2) := by
    rw [nativeEnvFields, hfields]
    simp [List.take_left]
  simp only [parseNativeUEvent] at h
  rw [hfields, henvfields] at h
  split at h
  · rename_i hcond
    simp at hcond
  · split at h
    · rename_i actionStr kobj hsp
      rw [List.headD_cons] at hsp
      obtain ⟨rfl, rfl⟩ := bsplit_header hsp
      split at h
      · simp at h
      · rename_i hsnd
        split at h
        · simp at h
        · rw [PResult.ret.injEq, Option.some.injEq] at h
          obtain ⟨he, herr⟩ := h
          have hcoll := collectEnvLoop_rendered msgWrongEnv e.Env [] herr
          rw [foldl_mapInsert_fresh e.Env [] (by simpa using hnodup)] at hcoll
          have he2 : e' = e := by
            rw [← he]
            cases e
            simp only at hcoll ⊢
            rw [hcoll]
            rfl
          rw [he2, equal_self]
    · simp at h

theorem c6_native_roundtrip_witness :
    (UEvent.Equal
        ⟨ADD, "/devices/foo".data, [(devpathKey, "/devices/foo".data)]⟩
        ⟨ADD, "/devices/foo".data, [(devpathKey, "/devices/foo".data)]⟩).1 = true :=
  c6_native_roundtrip
    ⟨ADD, "/devices/foo".data, [(devpathKey, "/devices/foo".data)]⟩
    ⟨ADD, "/devices/foo".data, [(devpathKey, "/devices/foo".data)]⟩
    (by decide) (by decide) (by decide) (by decide) (by decide)

end GoUdev
